import Mathlib

/-!
Verification of the branch-resolution and worktree-lifecycle engine of the
`@jubalm/workspace` CLI (source files `src/git.ts`, `src/commands.ts`).
The JavaScript string and path primitives used by the source are modelled
faithfully (first-occurrence `String.replace`, `startsWith`, the multiline
regex test of `ensureGitignore`, Node's `path.join` normalization), and the
effectful controller functions are modelled as functions from an environment
(the responses of the filesystem and of the `git` binary) to the ordered
list of external operations they perform plus an optional `process.exit`
code.
-/

namespace Workspace

/-! ### JavaScript string primitives -/

/-- Model of JS `s.startsWith(p)`. -/
def jsStartsWith (s p : String) : Bool :=
  p.data.isPrefixOf s.data

/-- Model of JS `String.prototype.replace` with a *string* pattern on char
lists: only the first occurrence of `pat` is replaced by `repl`. -/
def replaceFirstList (pat repl : List Char) : List Char → List Char
  | [] => if pat = [] then repl else []
  | c :: cs =>
    if pat.isPrefixOf (c :: cs) then repl ++ (c :: cs).drop pat.length
    else c :: replaceFirstList pat repl cs

/-- Model of JS `s.replace(pat, repl)` for a string pattern. -/
def jsReplaceFirst (s pat repl : String) : String :=
  ⟨replaceFirstList pat.data repl.data s.data⟩

/-- Dropping the first `n` characters of a string. -/
def strDrop (s : String) (n : Nat) : String :=
  ⟨s.data.drop n⟩

theorem prefixOf_exists : ∀ (p l : List Char), p.isPrefixOf l = true → ∃ r, l = p ++ r
  | [], l, _ => ⟨l, rfl⟩
  | _ :: _, [], h => by simp [List.isPrefixOf] at h
  | a :: as, b :: bs, h => by
      simp only [List.isPrefixOf, Bool.and_eq_true, beq_iff_eq] at h
      obtain ⟨r, hr⟩ := prefixOf_exists as bs h.2
      exact ⟨r, by simp [h.1, hr]⟩

theorem prefixOf_of_append : ∀ (p r : List Char), p.isPrefixOf (p ++ r) = true
  | [], _ => by simp [List.isPrefixOf]
  | a :: as, r => by simp [List.isPrefixOf, prefixOf_of_append as r]

theorem replaceFirstList_of_prefixOf (pat : List Char) (l : List Char)
    (h : pat.isPrefixOf l = true) :
    replaceFirstList pat [] l = l.drop pat.length := by
  cases l with
  | nil =>
    cases pat with
    | nil => simp [replaceFirstList]
    | cons p ps => simp [List.isPrefixOf] at h
  | cons c cs => simp [replaceFirstList, h]

/-- When `s` starts with `pat`, the JS first-occurrence replace by the empty
string is exactly dropping the pattern's length. -/
theorem jsReplaceFirst_of_startsWith (s pat : String) (h : jsStartsWith s pat = true) :
    jsReplaceFirst s pat "" = strDrop s pat.data.length := by
  simp only [jsStartsWith] at h
  simp [jsReplaceFirst, strDrop, replaceFirstList_of_prefixOf pat.data s.data h]

/-- Splitting a char list at every char satisfying `p` (separators removed). -/
def splitOnPred (p : Char → Bool) : List Char → List (List Char)
  | [] => [[]]
  | c :: cs =>
    if p c then [] :: splitOnPred p cs
    else
      match splitOnPred p cs with
      | [] => [[c]]
      | l :: ls => (c :: l) :: ls

theorem splitOnPred_ne_nil (p : Char → Bool) : ∀ l, splitOnPred p l ≠ []
  | [] => by simp [splitOnPred]
  | c :: cs => by
      by_cases h : p c = true
      · simp [splitOnPred, h]
      · simp only [splitOnPred, h]
        match hs : splitOnPred p cs with
        | [] => exact absurd hs (splitOnPred_ne_nil p cs)
        | l :: ls => simp

theorem splitOnPred_append (p : Char → Bool) (sep : Char) (hsep : p sep = true) :
    ∀ xs ys, splitOnPred p (xs ++ sep :: ys) = splitOnPred p xs ++ splitOnPred p ys
  | [], ys => by simp [splitOnPred, hsep]
  | c :: xs, ys => by
      by_cases h : p c = true
      · simp [splitOnPred, h, splitOnPred_append p sep hsep xs ys]
      · simp only [List.cons_append, splitOnPred, h, Bool.false_eq_true, if_false,
          List.append_eq]
        rw [splitOnPred_append p sep hsep xs ys]
        match hs : splitOnPred p xs with
        | [] => exact absurd hs (splitOnPred_ne_nil p xs)
        | l :: ls => simp

/-- The JS line terminators relevant to the `m` regex flag and to `.`. -/
def isJsLineTerminator (c : Char) : Bool :=
  c == '\n' || c == '\r' || c == '\u2028' || c == '\u2029'

/-! ### Worktree path naming (`sanitizeBranchName`, `getWorktreeName`) -/

/-- The character class `[a-zA-Z0-9_-]` of the sanitizer's regex. -/
def allowedChar (c : Char) : Bool :=
  c.isAlphanum || c == '_' || c == '-'

/-- Source: `branch.replace(/[^a-zA-Z0-9_-]/g, '-')`. -/
def sanitizeBranchName (branch : String) : String :=
  ⟨branch.data.map (fun c => if allowedChar c then c else '-')⟩

/-- Source: `branch.replace(/^origin\//, '')` — the regex is anchored, so
the replacement happens only when the string starts with `origin/`. -/
def stripOrigin (branch : String) : String :=
  if jsStartsWith branch "origin/" then strDrop branch 7 else branch

/-- Source: `getWorktreeName`. -/
def getWorktreeName (branch : String) : String :=
  sanitizeBranchName (stripOrigin branch)

/-! ### Branch resolution (`resolveBranch`) -/

inductive BranchType where
  | remote
  | local
  | new
deriving DecidableEq, Repr

structure BranchResolution where
  type : BranchType
  foundBranch : String
  cleanBranchName : String
deriving DecidableEq, Repr

/-- The classification step of `resolveBranch` (source lines 34-45): the
remote candidate and the clean branch name derived from the raw token. -/
def remoteCandidateAndClean (branch : String) : String × String :=
  if jsStartsWith branch "origin/" then
    (branch, jsReplaceFirst branch "origin/" "")
  else if jsStartsWith branch "remotes/origin/" then
    (jsReplaceFirst branch "remotes/" "", jsReplaceFirst branch "remotes/origin/" "")
  else
    ("origin/" ++ branch, branch)

/-- Source: `resolveBranch`, parameterized by the `branchExists` probe
(`git rev-parse --verify` succeeding with non-empty output).  Besides the
resolution it returns the ordered list of refs probed, which is the order
in which `branchExists` is invoked by the source. -/
def resolveBranch (branchExists : String → Bool) (branch : String) :
    BranchResolution × List String :=
  let remoteCandidate := (remoteCandidateAndClean branch).1
  let cleanBranchName := (remoteCandidateAndClean branch).2
  if branchExists remoteCandidate then
    (⟨.remote, remoteCandidate, cleanBranchName⟩, [remoteCandidate])
  else if branchExists cleanBranchName then
    (⟨.local, cleanBranchName, cleanBranchName⟩, [remoteCandidate, cleanBranchName])
  else
    (⟨.new, "", cleanBranchName⟩, [remoteCandidate, cleanBranchName])

/-! ### Node `path.join` (POSIX) -/

/-- One step of Node's path normalization over segments; the accumulator is
kept reversed.  On an absolute path a `..` at the root is dropped. -/
def normStep (isAbs : Bool) (acc : List String) (seg : String) : List String :=
  if seg = "" ∨ seg = "." then acc
  else if seg = ".." then
    match acc with
    | [] => if isAbs then [] else [".."]
    | a :: rest => if a = ".." then ".." :: acc else rest
  else seg :: acc

def strIntercalate (sep : String) : List String → String
  | [] => ""
  | x :: xs => xs.foldl (fun acc y => acc ++ sep ++ y) x

/-- Node `path.posix.normalize`, restricted to what `path.join` needs:
resolve `.`/`..`/duplicate separators, keep leading slash of an absolute
path and a single trailing slash of a non-trivial result. -/
def normalizePath (p : String) : String :=
  let isAbs : Bool := p.data.head? = some '/'
  let hasTrail : Bool := p.data.getLast? = some '/' && p.data.length > 1
  let segs := (splitOnPred (fun c => c == '/') p.data).map (fun l => (⟨l⟩ : String))
  let body := strIntercalate "/" ((segs.foldl (normStep isAbs) []).reverse)
  if isAbs then
    (if body = "" then "/" else "/" ++ body ++ (if hasTrail then "/" else ""))
  else
    (if body = "" then "." else body ++ (if hasTrail then "/" else ""))

/-- Node `path.posix.join`: non-empty parts joined with `/`, then
normalized; `"."` when everything is empty. -/
def pathJoin (parts : List String) : String :=
  let joined := strIntercalate "/" (parts.filter (fun s => s ≠ ""))
  if joined = "" then "." else normalizePath joined

/-! ### `.gitignore` management (`ensureGitignore`) -/

/-- Source constant `WORKTREE_DIR` from `git.ts`. -/
def WORKTREE_DIR : String := ".worktree"

/-- Source constant `DEFAULT_BASE_BRANCH` from `git.ts`. -/
def DEFAULT_BASE_BRANCH : String := "main"

/-- The `.gitignore` file as `ensureGitignore` sees it: whether
`existsSync` reports it present, and its text content. -/
structure GitignoreFile where
  fileExists : Bool
  content : String
deriving DecidableEq, Repr

/-- One line matched against the source regex built as
`new RegExp("^" + worktreeDir + "/?$", 'm')` with `worktreeDir = ".worktree"`.
The leading `.` of the directory name is an *unescaped regex dot*: it
matches any single non-line-terminator character. -/
def gitignoreLineMatches (line : List Char) : Bool :=
  match line with
  | [] => false
  | c :: rest =>
    !isJsLineTerminator c && (rest == "worktree".data || rest == "worktree/".data)

/-- The source's `regex.test(content)` with the `m` flag: some line of the
content (lines delimited by any JS line terminator) matches. -/
def gitignoreRegexTest (content : String) : Bool :=
  (splitOnPred isJsLineTerminator content.data).any gitignoreLineMatches

/-- The block appended by `ensureGitignore` when the pattern is missing. -/
def GITIGNORE_BLOCK : String := "\n# git worktrees\n" ++ WORKTREE_DIR ++ "/\n"

/-- Source: `ensureGitignore` — creates the file with `".worktree/\n"` when
absent, appends `GITIGNORE_BLOCK` when the regex finds no matching line,
and leaves the file alone otherwise. -/
def ensureGitignore (g : GitignoreFile) : GitignoreFile :=
  if !g.fileExists then ⟨true, WORKTREE_DIR ++ "/\n"⟩
  else if !gitignoreRegexTest g.content then ⟨true, g.content ++ GITIGNORE_BLOCK⟩
  else g

/-- Written from the spec's words, for comparison with the source behavior:
a line equal to the root name taken literally (`.worktree`, optionally with
a trailing slash). -/
def specLiteralLineTest (content : String) : Bool :=
  (splitOnPred isJsLineTerminator content.data).any
    (fun l => l == WORKTREE_DIR.data || l == (WORKTREE_DIR ++ "/").data)

/-! ### Effect events, environment, and the lifecycle controller -/

/-- Setup mode handed to the `runSetup` collaborator: the source value is
`'none'`, `'default'`, or an explicit script path string. -/
inductive SetupMode where
  | noSetup
  | defaultMode
  | script (path : String)
deriving DecidableEq, Repr

/-- External operations the controller performs, in order.  Read-only git
probes and state-changing operations are separate constructors so that
claims about "no Git state change" are statements about the trace. -/
inductive Event where
  | probeRef (ref : String)
  | readHead (path : String)
  | readUpstream (path : String)
  | fetch
  | gitignoreCreate (path content : String)
  | gitignoreAppend (path text : String)
  | mkdirWorktreeRoot (path : String)
  | worktreeAdd (path branch : String)
  | worktreeAddNewBranch (newBranch path startPoint : String)
  | setUpstream (path remoteBranch : String)
  | worktreeRemove (path : String)
  | branchDelete (branch : String)
  | listWorktrees
  | branchesDiag
  | runSetup (path : String) (mode : SetupMode)
deriving DecidableEq, Repr

/-- Events that change Git or filesystem state (worktree/branch/upstream
mutation, `.gitignore` writes, directory creation, fetch). -/
def gitMutation : Event → Bool
  | .gitignoreCreate _ _ => true
  | .gitignoreAppend _ _ => true
  | .mkdirWorktreeRoot _ => true
  | .fetch => true
  | .worktreeAdd _ _ => true
  | .worktreeAddNewBranch _ _ _ => true
  | .setUpstream _ _ => true
  | .worktreeRemove _ => true
  | .branchDelete _ => true
  | _ => false

/-- A branch-resolution existence probe. -/
def isProbeEvent : Event → Bool
  | .probeRef _ => true
  | _ => false

/-- A worktree-remove or branch-delete operation. -/
def isRemovalEvent : Event → Bool
  | .worktreeRemove _ => true
  | .branchDelete _ => true
  | _ => false

/-- The world the controller runs against: responses of the filesystem and
of the `git` binary.  `revParseVerify` is the trimmed stdout of
`git rev-parse --verify <ref>` (empty string on failure, as `execQuiet`
reports); `headOf`/`upstreamOf` are the outputs of the two read commands of
`getBranchInfo`; `setupOk` is the boolean of the `runSetup` collaborator;
`branchDeleteOut` is the output of `git branch -D`, empty on failure. -/
structure Env where
  projectRoot : String
  pathExists : String → Bool
  revParseVerify : String → String
  headOf : String → String
  upstreamOf : String → String
  gitignoreExists : Bool
  gitignoreContent : String
  setupOk : String → SetupMode → Bool
  branchDeleteOut : String → String

/-- `branchExists` from `git.ts`: non-empty `rev-parse --verify` output. -/
def branchExistsIn (env : Env) (branch : String) : Bool :=
  env.revParseVerify branch != ""

/-- Source: `getWorktreePath` from `git.ts`. -/
def getWorktreePath (worktreeDir branch : String) : String :=
  pathJoin [worktreeDir, getWorktreeName branch]

/-- Options of the create command (`commands.ts`); `setupScript` and
`baseBranch` are absent or a string (and JS treats `""` as falsy). -/
structure CreateWorktreeOptions where
  skipSetup : Bool
  setupScript : Option String
  baseBranch : Option String

/-- `options.skipSetup ? 'none' : options.setupScript || 'default'`. -/
def setupModeOf (o : CreateWorktreeOptions) : SetupMode :=
  if o.skipSetup then .noSetup
  else
    match o.setupScript with
    | Option.none => .defaultMode
    | Option.some s => if s = "" then .defaultMode else .script s

/-- `baseBranchOption || DEFAULT_BASE_BRANCH` from `createNewBranch`. -/
def effectiveBaseBranch (baseBranchOption : Option String) : String :=
  match baseBranchOption with
  | Option.none => DEFAULT_BASE_BRANCH
  | Option.some s => if s = "" then DEFAULT_BASE_BRANCH else s

/-- Source: `ensureTracking` — probe the upstream of the worktree's branch
and set it to `remoteBranch` only when none is configured. -/
def ensureTracking (env : Env) (worktreePath remoteBranch : String) : List Event :=
  [.readUpstream worktreePath] ++
    (if env.upstreamOf worktreePath = "" then [.setUpstream worktreePath remoteBranch]
     else [])

/-- Source: `createFromRemoteBranch` plus its two helpers
`createWorktreeWithExistingBranch` / `createWorktreeWithNewTrackingBranch`. -/
def createFromRemoteBranch (env : Env) (worktreePath : String)
    (resolution : BranchResolution) : List Event × Option Nat :=
  let trackingBranchName := jsReplaceFirst resolution.foundBranch "origin/" ""
  if branchExistsIn env trackingBranchName then
    ([.probeRef trackingBranchName, .worktreeAdd worktreePath trackingBranchName] ++
       ensureTracking env worktreePath resolution.foundBranch, Option.none)
  else
    ([.probeRef trackingBranchName,
      .worktreeAddNewBranch trackingBranchName worktreePath resolution.foundBranch,
      .setUpstream worktreePath resolution.foundBranch], Option.none)

/-- Source: `createFromLocalBranch`. -/
def createFromLocalBranch (worktreePath : String)
    (resolution : BranchResolution) : List Event × Option Nat :=
  ([.worktreeAdd worktreePath resolution.foundBranch], Option.none)

/-- Source: `createNewBranch` — verify the base branch (aborting with
`process.exit(1)` after listing branches when missing), resolve it to a
commit with `getBranchRef` (the same `rev-parse --verify` command run a
second time), and create the worktree with a new branch at that commit. -/
def createNewBranch (env : Env) (worktreePath : String)
    (resolution : BranchResolution) (baseBranchOption : Option String) :
    List Event × Option Nat :=
  let baseBranch := effectiveBaseBranch baseBranchOption
  if !branchExistsIn env baseBranch then
    ([.probeRef baseBranch, .branchesDiag], Option.some 1)
  else
    ([.probeRef baseBranch, .probeRef baseBranch,
      .worktreeAddNewBranch resolution.cleanBranchName worktreePath
        (env.revParseVerify baseBranch)], Option.none)

/-- The events of `ensureGitignore` as run by `setupPrerequisites`. -/
def ensureGitignoreEvents (env : Env) : List Event :=
  let gitignorePath := pathJoin [env.projectRoot, ".gitignore"]
  if !env.gitignoreExists then
    [.gitignoreCreate gitignorePath (WORKTREE_DIR ++ "/\n")]
  else if !gitignoreRegexTest env.gitignoreContent then
    [.gitignoreAppend gitignorePath GITIGNORE_BLOCK]
  else []

/-- The events of `ensureWorktreeDir`. -/
def ensureWorktreeDirEvents (env : Env) : List Event :=
  if !env.pathExists (pathJoin [env.projectRoot, WORKTREE_DIR]) then
    [.mkdirWorktreeRoot (pathJoin [env.projectRoot, WORKTREE_DIR])]
  else []

/-- Source: `setupPrerequisites` — gitignore fix-up, worktree-root
creation, quiet fetch, in that order. -/
def setupPrerequisitesEvents (env : Env) : List Event :=
  ensureGitignoreEvents env ++ ensureWorktreeDirEvents env ++ [.fetch]

/-- Source: `handleExistingWorktree` — re-run setup (exiting 1 on failure)
then refresh the tracking-branch display info via `getBranchInfo`. -/
def handleExistingWorktree (env : Env) (worktreePath : String)
    (options : CreateWorktreeOptions) : List Event × Option Nat :=
  let mode := setupModeOf options
  if !env.setupOk worktreePath mode then
    ([.runSetup worktreePath mode], Option.some 1)
  else
    ([.runSetup worktreePath mode, .readHead worktreePath, .readUpstream worktreePath],
      Option.none)

/-- Source: `createWorktree` from `commands.ts`: path preparation, the
early return for an existing worktree path, prerequisites, branch
resolution, dispatch by resolution type, setup, and the final
`getBranchInfo` read for the summary. -/
def createWorktree (env : Env) (branch : String)
    (options : CreateWorktreeOptions) : List Event × Option Nat :=
  let worktreePath := getWorktreePath (pathJoin [env.projectRoot, WORKTREE_DIR]) branch
  if env.pathExists worktreePath then
    handleExistingWorktree env worktreePath options
  else
    let pre := setupPrerequisitesEvents env
    let res := resolveBranch (branchExistsIn env) branch
    let probeEvents := res.2.map Event.probeRef
    let dispatched :=
      match res.1.type with
      | .remote => createFromRemoteBranch env worktreePath res.1
      | .local => createFromLocalBranch worktreePath res.1
      | .new => createNewBranch env worktreePath res.1 options.baseBranch
    match dispatched.2 with
    | Option.some code => (pre ++ probeEvents ++ dispatched.1, Option.some code)
    | Option.none =>
      let mode := setupModeOf options
      if !env.setupOk worktreePath mode then
        (pre ++ probeEvents ++ dispatched.1 ++ [.runSetup worktreePath mode],
          Option.some 1)
      else
        (pre ++ probeEvents ++ dispatched.1 ++
           [.runSetup worktreePath mode, .readHead worktreePath,
            .readUpstream worktreePath], Option.none)

/-- The target path computed by `removeWorktree`:
`join(projectRoot, WORKTREE_DIR, name)` with the user-supplied `name`
used verbatim. -/
def removeWorktreeTargetPath (env : Env) (name : String) : String :=
  pathJoin [env.projectRoot, WORKTREE_DIR, name]

/-- Source: `removeWorktree` from `commands.ts` — abort with exit 1 after
listing worktrees when the path is missing; otherwise read the checked-out
branch, force-remove the worktree, force-delete the branch only when its
name is non-empty and not the detached-head marker `HEAD`, and list the
remaining worktrees. -/
def removeWorktree (env : Env) (name : String) : List Event × Option Nat :=
  let worktreePath := removeWorktreeTargetPath env name
  if !env.pathExists worktreePath then
    ([.listWorktrees], Option.some 1)
  else
    let branchName := env.headOf worktreePath
    ([.readHead worktreePath, .worktreeRemove worktreePath] ++
       (if branchName ≠ "" ∧ branchName ≠ "HEAD" then [.branchDelete branchName]
        else []) ++ [.listWorktrees], Option.none)

/-! ### Spec-side comparison definitions and concrete environments -/

/-- Written from the spec's words: a token name fully matching
`[A-Za-z0-9_-]+` (at least one character, all characters in the class). -/
def matchesNamePattern (s : String) : Bool :=
  !s.data.isEmpty && s.data.all allowedChar

/-- A concrete environment in which every filesystem path exists, every
ref probe fails, the checked-out branch is `main`, and setup succeeds. -/
def envReuse : Env :=
  { projectRoot := "/repo", pathExists := fun _ => true,
    revParseVerify := fun _ => "", headOf := fun _ => "main",
    upstreamOf := fun _ => "", gitignoreExists := true, gitignoreContent := "",
    setupOk := fun _ _ => true, branchDeleteOut := fun _ => "" }

/-- `envReuse` with no filesystem path existing. -/
def envAbsent : Env :=
  { envReuse with pathExists := fun _ => false }

/-- An environment in which exactly the repository root `/repo` exists on
disk and the worktree checkout is a detached head. -/
def envEscape : Env :=
  { projectRoot := "/repo", pathExists := fun p => p == "/repo",
    revParseVerify := fun _ => "", headOf := fun _ => "HEAD",
    upstreamOf := fun _ => "", gitignoreExists := true, gitignoreContent := "",
    setupOk := fun _ _ => true, branchDeleteOut := fun _ => "" }

/-- Create options with no flag set. -/
def optsPlain : CreateWorktreeOptions := ⟨false, Option.none, Option.none⟩

/-! ### Helper lemmas -/

theorem allowed_sanitized (l : List Char) :
    (l.map (fun c => if allowedChar c then c else '-')).all allowedChar = true := by
  induction l with
  | nil => rfl
  | cons c cs ih =>
    simp only [List.map_cons, List.all_cons, Bool.and_eq_true]
    refine ⟨?_, ih⟩
    by_cases h : allowedChar c = true
    · simp [h]
    · rw [if_neg h]; decide

theorem map_id_of_allowed (l : List Char) (h : l.all allowedChar = true) :
    l.map (fun c => if allowedChar c then c else '-') = l := by
  induction l with
  | nil => rfl
  | cons c cs ih =>
    simp only [List.all_cons, Bool.and_eq_true] at h
    simp [h.1, ih h.2]

theorem not_startsWith_origin_of_allowed (s : String)
    (h : s.data.all allowedChar = true) : jsStartsWith s "origin/" = false := by
  by_contra hc
  rw [Bool.not_eq_false] at hc
  obtain ⟨r, hr⟩ := prefixOf_exists _ _ hc
  have hm : '/' ∈ s.data := by
    rw [hr]; exact List.mem_append_left _ (by decide)
  have := (List.all_eq_true.mp h) '/' hm
  exact absurd this (by decide)

theorem gitignoreRegexTest_append_block (c : String) :
    gitignoreRegexTest (c ++ GITIGNORE_BLOCK) = true := by
  have hd : (c ++ GITIGNORE_BLOCK).data =
      c.data ++ '\n' :: ("# git worktrees\n.worktree/\n").data := by
    rw [String.data_append]; rfl
  rw [gitignoreRegexTest, hd,
    splitOnPred_append isJsLineTerminator '\n' (by decide), List.any_append]
  have h2 : (splitOnPred isJsLineTerminator
      ("# git worktrees\n.worktree/\n").data).any gitignoreLineMatches = true := by decide
  simp [h2]

theorem append_block_ne (c : String) : c ++ GITIGNORE_BLOCK ≠ c := by
  intro h
  have hlen := congrArg (fun s : String => s.data.length) h
  simp only [String.data_append, List.length_append] at hlen
  have hb : GITIGNORE_BLOCK.data.length = 28 := by decide
  omega

/-! ### Claim theorems -/

/-- Claim C1: `resolveBranch` classifies every branch token (an
`origin/`-prefixed token keeps itself as the remote candidate and drops the
prefix for the clean name; a `remotes/origin/`-prefixed token drops
`remotes/` for the remote candidate and `remotes/origin/` for the clean
name; any other token gets `origin/` prepended and is its own clean name),
then probes the remote candidate strictly first (the returned probe list
records the `branchExists` calls in order): if it exists the result is
`remote` with that candidate as `foundBranch`; else the clean name is
probed as a local ref, giving `local`; else `new` with empty
`foundBranch`.  In an environment where every ref exists (so both remote
and local candidates exist) the result is always `remote`. -/
theorem resolveBranch_classification_and_order (ex : String → Bool) (t : String) :
    remoteCandidateAndClean t =
      (if jsStartsWith t "origin/" then (t, strDrop t 7)
       else if jsStartsWith t "remotes/origin/" then (strDrop t 8, strDrop t 15)
       else ("origin/" ++ t, t)) ∧
    resolveBranch ex t =
      (if ex (remoteCandidateAndClean t).1 then
        (⟨.remote, (remoteCandidateAndClean t).1, (remoteCandidateAndClean t).2⟩,
          [(remoteCandidateAndClean t).1])
       else if ex (remoteCandidateAndClean t).2 then
        (⟨.local, (remoteCandidateAndClean t).2, (remoteCandidateAndClean t).2⟩,
          [(remoteCandidateAndClean t).1, (remoteCandidateAndClean t).2])
       else
        (⟨.new, "", (remoteCandidateAndClean t).2⟩,
          [(remoteCandidateAndClean t).1, (remoteCandidateAndClean t).2])) ∧
    (resolveBranch (fun _ => true) t).1.type = .remote := by
  have e7 : ("origin/" : String).data.length = 7 := by decide
  have e8 : ("remotes/" : String).data.length = 8 := by decide
  have e15 : ("remotes/origin/" : String).data.length = 15 := by decide
  refine ⟨?_, rfl, rfl⟩
  by_cases h1 : jsStartsWith t "origin/" = true
  · rw [remoteCandidateAndClean, if_pos h1, if_pos h1,
      jsReplaceFirst_of_startsWith t "origin/" h1, e7]
  · by_cases h2 : jsStartsWith t "remotes/origin/" = true
    · have h8 : jsStartsWith t "remotes/" = true := by
        obtain ⟨r, hr⟩ := prefixOf_exists _ _ h2
        simp only [jsStartsWith]
        rw [hr]
        have hsplit : ("remotes/origin/").data = ("remotes/").data ++ ("origin/").data := by
          decide
        rw [hsplit, List.append_assoc]
        exact prefixOf_of_append _ _
      rw [remoteCandidateAndClean, if_neg h1, if_pos h2, if_neg h1, if_pos h2,
        jsReplaceFirst_of_startsWith t "remotes/" h8,
        jsReplaceFirst_of_startsWith t "remotes/origin/" h2, e8, e15]
    · rw [remoteCandidateAndClean, if_neg h1, if_neg h2, if_neg h1, if_neg h2]

/-- Claim C2 is false as stated: the source strips the remote prefix with
JS `String.replace`, which removes only the *first occurrence*, so a
nested token such as `origin/origin/x` yields `cleanBranchName =
"origin/x"`, which still starts with `origin/`. -/
theorem resolveBranch_cleanName_keeps_prefix_counterexample :
    (resolveBranch (fun _ => false) "origin/origin/x").1.cleanBranchName = "origin/x" ∧
    jsStartsWith
      ((resolveBranch (fun _ => false) "origin/origin/x").1.cleanBranchName)
      "origin/" = true := by
  exact ⟨by decide, by decide⟩

/-- Claim C2 (amended): for tokens `t` starting with `origin/` whose
remainder after that prefix does not itself start with `origin/`, the
`cleanBranchName` of every resolution of `t` does not start with
`origin/` (the source removes only the first occurrence of the prefix, so
the invariant holds exactly when the token does not nest a second remote
prefix directly after the stripped one). -/
theorem resolveBranch_cleanName_no_prefix (ex : String → Bool) (t : String)
    (h1 : jsStartsWith t "origin/" = true)
    (h2 : jsStartsWith (strDrop t 7) "origin/" = false) :
    jsStartsWith ((resolveBranch ex t).1.cleanBranchName) "origin/" = false := by
  have hclean : (remoteCandidateAndClean t).2 = strDrop t 7 := by
    have e7 : ("origin/" : String).data.length = 7 := by decide
    rw [remoteCandidateAndClean, if_pos h1, jsReplaceFirst_of_startsWith t "origin/" h1, e7]
  have hres : (resolveBranch ex t).1.cleanBranchName = (remoteCandidateAndClean t).2 := by
    rw [resolveBranch]
    by_cases ha : ex (remoteCandidateAndClean t).1 = true
    · simp [ha]
    · by_cases hb : ex (remoteCandidateAndClean t).2 = true
      · simp [ha, hb]
      · simp [ha, hb]
  rw [hres, hclean]
  exact h2

/-- Witness for C2's amended theorem at the concrete token `origin/x` in
an environment with no existing refs. -/
theorem resolveBranch_cleanName_no_prefix_witness :
    jsStartsWith "origin/x" "origin/" = true ∧
    jsStartsWith (strDrop "origin/x" 7) "origin/" = false ∧
    jsStartsWith
      ((resolveBranch (fun _ => false) "origin/x").1.cleanBranchName)
      "origin/" = false :=
  ⟨by decide, by decide,
    resolveBranch_cleanName_no_prefix (fun _ => false) "origin/x" (by decide) (by decide)⟩

/-- Claim C6 is false as stated: the source builds the line pattern as
`new RegExp("^" + worktreeDir + "/?$", 'm')` without escaping, so the
leading `.` of `.worktree` is a regex wildcard, not the literal dot the
claim requires.  A `.gitignore` consisting of the single line `aworktree`
has no line matching the literal pattern, so the claim predicts an
append; the source's regex matches that line and nothing is appended. -/
theorem ensureGitignore_literal_counterexample :
    specLiteralLineTest "aworktree" = false ∧
    gitignoreRegexTest "aworktree" = true ∧
    ensureGitignore ⟨true, "aworktree"⟩ = ⟨true, "aworktree"⟩ := by
  exact ⟨by decide, by decide, by decide⟩

/-- Claim C6 (amended): the ensure-step appends the block
`\n# git worktrees\n.worktree/\n` to an existing `.gitignore` exactly when
no existing line matches `^.worktree/?$` with the leading dot acting as a
single-character regex wildcard (any one non-line-terminator character
followed by `worktree` or `worktree/`); consequently running the
ensure-step twice never appends a second block (the step is idempotent,
also across the create-when-absent branch). -/
theorem ensureGitignore_append_iff_and_idempotent (c : String) (g : GitignoreFile) :
    ((ensureGitignore ⟨true, c⟩).content = c ++ GITIGNORE_BLOCK ↔
      gitignoreRegexTest c = false) ∧
    (ensureGitignore ⟨true, c⟩ = ⟨true, c⟩ ↔ gitignoreRegexTest c = true) ∧
    ensureGitignore (ensureGitignore g) = ensureGitignore g := by
  refine ⟨?_, ?_, ?_⟩
  · by_cases h : gitignoreRegexTest c = true
    · have hfix : ensureGitignore ⟨true, c⟩ = ⟨true, c⟩ := by
        simp [ensureGitignore, h]
      rw [hfix, h]
      constructor
      · intro hc
        exact absurd hc.symm (append_block_ne c)
      · intro hc
        exact absurd hc (by decide)
    · have hf : gitignoreRegexTest c = false := by simpa using h
      have hfix : ensureGitignore ⟨true, c⟩ = ⟨true, c ++ GITIGNORE_BLOCK⟩ := by
        simp [ensureGitignore, hf]
      rw [hfix, hf]
      simp
  · by_cases h : gitignoreRegexTest c = true
    · have hfix : ensureGitignore ⟨true, c⟩ = ⟨true, c⟩ := by
        simp [ensureGitignore, h]
      rw [hfix, h]
      simp
    · have hf : gitignoreRegexTest c = false := by simpa using h
      have hfix : ensureGitignore ⟨true, c⟩ = ⟨true, c ++ GITIGNORE_BLOCK⟩ := by
        simp [ensureGitignore, hf]
      rw [hfix, hf]
      constructor
      · intro hc
        have hcc : c ++ GITIGNORE_BLOCK = c := congrArg GitignoreFile.content hc
        exact absurd hcc (append_block_ne c)
      · intro hc
        exact absurd hc (by decide)
  · by_cases hex : g.fileExists = true
    · by_cases h : gitignoreRegexTest g.content = true
      · have hfix : ensureGitignore g = g := by
          simp [ensureGitignore, hex, h]
        rw [hfix, hfix]
      · have hfix : ensureGitignore g = ⟨true, g.content ++ GITIGNORE_BLOCK⟩ := by
          simp only [Bool.not_eq_true] at h
          simp [ensureGitignore, hex, h]
        rw [hfix]
        simp [ensureGitignore, gitignoreRegexTest_append_block]
    · simp only [Bool.not_eq_true] at hex
      have hfix : ensureGitignore g = ⟨true, WORKTREE_DIR ++ "/\n"⟩ := by
        simp [ensureGitignore, hex]
      rw [hfix]
      have htest : gitignoreRegexTest (WORKTREE_DIR ++ "/\n") = true := by decide
      simp [ensureGitignore, htest]

/-- Claim C7 is false in one corner: for the token `"origin/"` (and for
the empty token) the computed worktree name is the empty string, which
does not match `[A-Za-z0-9_-]+` (the regex requires at least one
character). -/
theorem getWorktreeName_empty_counterexample :
    getWorktreeName "origin/" = "" ∧
    matchesNamePattern (getWorktreeName "origin/") = false := by
  exact ⟨by decide, by decide⟩

/-- Claim C7 (amended): `getWorktreeName` is a pure function of the token
(modelled as a Lean function, so repeated calls agree by definition), it
is idempotent, and every character of its output lies in the class
`[A-Za-z0-9_-]` (the output matches `[A-Za-z0-9_-]*`; it is empty exactly
when the token minus a leading `origin/` is empty, so the spec's
`[A-Za-z0-9_-]+` holds for all tokens with non-empty stripped content). -/
theorem getWorktreeName_idempotent_and_charclass (t : String) :
    getWorktreeName (getWorktreeName t) = getWorktreeName t ∧
    (getWorktreeName t).data.all allowedChar = true := by
  have hall : (getWorktreeName t).data.all allowedChar = true :=
    allowed_sanitized (stripOrigin t).data
  refine ⟨?_, hall⟩
  have hns : jsStartsWith (getWorktreeName t) "origin/" = false :=
    not_startsWith_origin_of_allowed _ hall
  rw [getWorktreeName, stripOrigin, hns]
  simp only [Bool.false_eq_true, if_false]
  exact congrArg String.mk (map_id_of_allowed _ hall)

/-- Claim C3: when the derived worktree path already exists on disk, the
create command is exactly `handleExistingWorktree`: it runs setup (exiting
1 on failure) and, on success, refreshes the tracking-branch display info
and reports.  Its trace contains no Git state-changing operation (no
worktree-add, no gitignore write, no mkdir, no fetch, no upstream change)
and no branch-resolution probe. -/
theorem createWorktree_reuse_no_git_ops (env : Env) (branch : String)
    (options : CreateWorktreeOptions)
    (h : env.pathExists
      (getWorktreePath (pathJoin [env.projectRoot, WORKTREE_DIR]) branch) = true) :
    createWorktree env branch options =
      (if env.setupOk (getWorktreePath (pathJoin [env.projectRoot, WORKTREE_DIR]) branch)
           (setupModeOf options) then
        ([.runSetup (getWorktreePath (pathJoin [env.projectRoot, WORKTREE_DIR]) branch)
            (setupModeOf options),
          .readHead (getWorktreePath (pathJoin [env.projectRoot, WORKTREE_DIR]) branch),
          .readUpstream (getWorktreePath (pathJoin [env.projectRoot, WORKTREE_DIR]) branch)],
          Option.none)
       else
        ([.runSetup (getWorktreePath (pathJoin [env.projectRoot, WORKTREE_DIR]) branch)
            (setupModeOf options)], Option.some 1)) ∧
    (createWorktree env branch options).1.all
      (fun e => !gitMutation e && !isProbeEvent e) = true := by
  have hfix : createWorktree env branch options =
      handleExistingWorktree env
        (getWorktreePath (pathJoin [env.projectRoot, WORKTREE_DIR]) branch) options := by
    rw [createWorktree]
    simp only [h, if_true]
  constructor
  · rw [hfix, handleExistingWorktree]
    by_cases hs : env.setupOk
        (getWorktreePath (pathJoin [env.projectRoot, WORKTREE_DIR]) branch)
        (setupModeOf options) = true
    · simp [hs]
    · simp only [Bool.not_eq_true] at hs
      simp [hs]
  · rw [hfix, handleExistingWorktree]
    by_cases hs : env.setupOk
        (getWorktreePath (pathJoin [env.projectRoot, WORKTREE_DIR]) branch)
        (setupModeOf options) = true
    · simp [hs, gitMutation, isProbeEvent]
    · simp only [Bool.not_eq_true] at hs
      simp [hs, gitMutation, isProbeEvent]

/-- Witness for C3 in a concrete environment where every path exists. -/
theorem createWorktree_reuse_witness :
    envReuse.pathExists
      (getWorktreePath (pathJoin [envReuse.projectRoot, WORKTREE_DIR]) "feature/x") = true ∧
    (createWorktree envReuse "feature/x" optsPlain).1.all
      (fun e => !gitMutation e && !isProbeEvent e) = true :=
  ⟨rfl, (createWorktree_reuse_no_git_ops envReuse "feature/x" optsPlain rfl).2⟩

/-- Claim C4: `createNewBranch` uses the explicit base-branch option when
it is a non-empty string and the default `main` otherwise; when the base
branch does not exist (`rev-parse --verify` empty) it emits only the
probe and the diagnostic branch listing and exits with status 1 (no
state-changing operation); otherwise it re-resolves the base branch to
its commit and passes that resolved commit — not the base branch name —
to `git worktree add -b cleanBranchName`. -/
theorem createNewBranch_spec (env : Env) (worktreePath : String)
    (resolution : BranchResolution) (baseBranchOption : Option String) (s : String) :
    effectiveBaseBranch Option.none = DEFAULT_BASE_BRANCH ∧
    effectiveBaseBranch (Option.some s) =
      (if s = "" then DEFAULT_BASE_BRANCH else s) ∧
    createNewBranch env worktreePath resolution baseBranchOption =
      (if env.revParseVerify (effectiveBaseBranch baseBranchOption) = "" then
        ([.probeRef (effectiveBaseBranch baseBranchOption), .branchesDiag],
          Option.some 1)
       else
        ([.probeRef (effectiveBaseBranch baseBranchOption),
          .probeRef (effectiveBaseBranch baseBranchOption),
          .worktreeAddNewBranch resolution.cleanBranchName worktreePath
            (env.revParseVerify (effectiveBaseBranch baseBranchOption))],
          Option.none)) ∧
    ([Event.probeRef (effectiveBaseBranch baseBranchOption), Event.branchesDiag].all
      (fun e => !gitMutation e)) = true := by
  refine ⟨rfl, rfl, ?_, by simp [gitMutation]⟩
  by_cases hx : env.revParseVerify (effectiveBaseBranch baseBranchOption) = ""
  · simp [createNewBranch, branchExistsIn, hx]
  · simp [createNewBranch, branchExistsIn, hx]

/-- Claim C5: `createFromRemoteBranch` strips `origin/` from the found
remote ref to obtain the local tracking-branch name (every remote
candidate produced by classification starts with `origin/`, and stripping
the leading `origin/` from `origin/ ++ r` yields `r`); when that local
branch already exists, the worktree is added checking it out and the
upstream is set to the found ref only when no upstream is currently
configured; when it does not exist, the worktree is created with
`git worktree add -b` from the found ref and the upstream is then set
unconditionally. -/
theorem createFromRemoteBranch_spec (env : Env) (worktreePath : String)
    (resolution : BranchResolution) (t r : String) :
    jsStartsWith (remoteCandidateAndClean t).1 "origin/" = true ∧
    jsReplaceFirst ("origin/" ++ r) "origin/" "" = r ∧
    createFromRemoteBranch env worktreePath resolution =
      (if env.revParseVerify (jsReplaceFirst resolution.foundBranch "origin/" "") = "" then
        ([.probeRef (jsReplaceFirst resolution.foundBranch "origin/" ""),
          .worktreeAddNewBranch (jsReplaceFirst resolution.foundBranch "origin/" "")
            worktreePath resolution.foundBranch,
          .setUpstream worktreePath resolution.foundBranch], Option.none)
       else
        ([.probeRef (jsReplaceFirst resolution.foundBranch "origin/" ""),
          .worktreeAdd worktreePath (jsReplaceFirst resolution.foundBranch "origin/" ""),
          .readUpstream worktreePath] ++
          (if env.upstreamOf worktreePath = ""
           then [.setUpstream worktreePath resolution.foundBranch] else []),
          Option.none)) := by
  refine ⟨?_, ?_, ?_⟩
  · rw [remoteCandidateAndClean]
    by_cases h1 : jsStartsWith t "origin/" = true
    · simp [h1]
    · by_cases h2 : jsStartsWith t "remotes/origin/" = true
      · simp only [h1, Bool.false_eq_true, if_false, h2, if_true]
        obtain ⟨rr, hrr⟩ := prefixOf_exists _ _ h2
        rw [jsReplaceFirst_of_startsWith t "remotes/" ?hpre]
        case hpre =>
          simp only [jsStartsWith]
          rw [hrr]
          have hsplit : ("remotes/origin/").data =
              ("remotes/").data ++ ("origin/").data := by decide
          rw [hsplit, List.append_assoc]
          exact prefixOf_of_append _ _
        simp only [jsStartsWith, strDrop]
        rw [hrr]
        have hsplit : ("remotes/origin/").data =
            ("remotes/").data ++ ("origin/").data := by decide
        rw [hsplit, List.append_assoc]
        have e8 : ("remotes/" : String).data.length = 8 := by decide
        rw [show ("remotes/" : String).data.length = 8 from e8]
        rw [show (("remotes/").data ++ (("origin/").data ++ rr)).drop 8 =
          ("origin/").data ++ rr from by
            have := List.drop_left (("remotes/").data) (("origin/").data ++ rr)
            simp only [e8] at this
            exact this]
        exact prefixOf_of_append _ _
      · simp only [h1, Bool.false_eq_true, if_false, h2]
        simp only [jsStartsWith, String.data_append]
        exact prefixOf_of_append _ _
  · have hsw : jsStartsWith ("origin/" ++ r) "origin/" = true := by
      simp only [jsStartsWith, String.data_append]
      exact prefixOf_of_append _ _
    rw [jsReplaceFirst_of_startsWith _ _ hsw]
    have e7 : ("origin/" : String).data.length = 7 := by decide
    rw [e7, strDrop]
    have : (("origin/" ++ r) : String).data = ("origin/").data ++ r.data := by
      rw [String.data_append]
    rw [this]
    rw [show (("origin/").data ++ r.data).drop 7 = r.data from by
      have := List.drop_left (("origin/").data) r.data
      simp only [e7] at this
      exact this]
  · by_cases hx : env.revParseVerify (jsReplaceFirst resolution.foundBranch "origin/" "") = ""
    · simp [createFromRemoteBranch, branchExistsIn, ensureTracking, hx]
    · simp [createFromRemoteBranch, branchExistsIn, ensureTracking, hx]

/-- Claim C8: when the computed worktree path does not exist on disk, the
remove command only lists the current worktrees and exits with status 1;
its trace contains no worktree-remove and no branch-delete operation. -/
theorem removeWorktree_missing_path (env : Env) (name : String)
    (h : env.pathExists (removeWorktreeTargetPath env name) = false) :
    removeWorktree env name = ([.listWorktrees], Option.some 1) ∧
    (removeWorktree env name).1.all (fun e => !isRemovalEvent e) = true := by
  have hfix : removeWorktree env name = ([.listWorktrees], Option.some 1) := by
    simp [removeWorktree, h]
  exact ⟨hfix, by rw [hfix]; decide⟩

/-- Witness for C8 in a concrete environment with no existing path. -/
theorem removeWorktree_missing_path_witness :
    envAbsent.pathExists (removeWorktreeTargetPath envAbsent "feature-x") = false ∧
    removeWorktree envAbsent "feature-x" = ([.listWorktrees], Option.some 1) :=
  ⟨rfl, (removeWorktree_missing_path envAbsent "feature-x" rfl).1⟩

/-- Claim C9: on an existing worktree path the remove command reads the
checked-out branch, force-removes the worktree, force-deletes the local
branch exactly when the captured branch name is non-empty and is not the
detached-head marker `HEAD`, and always completes with no failure exit —
the environment's `git branch -D` output (`branchDeleteOut`) is
unconstrained, so a failed or skipped deletion never changes the
outcome. -/
theorem removeWorktree_existing_path (env : Env) (name : String)
    (h : env.pathExists (removeWorktreeTargetPath env name) = true) :
    removeWorktree env name =
      ([.readHead (removeWorktreeTargetPath env name),
        .worktreeRemove (removeWorktreeTargetPath env name)] ++
        (if env.headOf (removeWorktreeTargetPath env name) ≠ "" ∧
            env.headOf (removeWorktreeTargetPath env name) ≠ "HEAD"
         then [.branchDelete (env.headOf (removeWorktreeTargetPath env name))]
         else []) ++ [.listWorktrees], Option.none) ∧
    (Event.branchDelete (env.headOf (removeWorktreeTargetPath env name)) ∈
        (removeWorktree env name).1 ↔
      (env.headOf (removeWorktreeTargetPath env name) ≠ "" ∧
       env.headOf (removeWorktreeTargetPath env name) ≠ "HEAD")) ∧
    (removeWorktree env name).2 = Option.none := by
  have hfix : removeWorktree env name =
      ([.readHead (removeWorktreeTargetPath env name),
        .worktreeRemove (removeWorktreeTargetPath env name)] ++
        (if env.headOf (removeWorktreeTargetPath env name) ≠ "" ∧
            env.headOf (removeWorktreeTargetPath env name) ≠ "HEAD"
         then [.branchDelete (env.headOf (removeWorktreeTargetPath env name))]
         else []) ++ [.listWorktrees], Option.none) := by
    simp [removeWorktree, h]
  refine ⟨hfix, ?_, by rw [hfix]⟩
  rw [hfix]
  by_cases hb : env.headOf (removeWorktreeTargetPath env name) ≠ "" ∧
      env.headOf (removeWorktreeTargetPath env name) ≠ "HEAD"
  · simp [hb]
  · rw [if_neg hb]
    constructor
    · intro hc
      exfalso
      simp at hc
    · intro hc
      exact absurd hc hb

/-- Witness for C9 in a concrete environment where every path exists and
the checked-out branch is `main`. -/
theorem removeWorktree_existing_path_witness :
    envReuse.pathExists (removeWorktreeTargetPath envReuse "feature-x") = true ∧
    (removeWorktree envReuse "feature-x").2 = Option.none :=
  ⟨rfl, (removeWorktree_existing_path envReuse "feature-x" rfl).2.2⟩

/-- Claim C10: the remove command joins the user-supplied name verbatim
onto `projectRoot/.worktree` (it never applies `sanitizeBranchName`), so
the name `..` escapes the worktree root: the computed target equals the
project root `/repo` itself (while the sanitized name `--` would have
stayed inside the root), the target does not lie under
`/repo/.worktree`, and in an environment where `/repo` exists the
existence check passes and the forced worktree-remove is applied to
`/repo`. -/
theorem removeWorktree_unsanitized_escape :
    (∀ env name, removeWorktreeTargetPath env name =
      pathJoin [env.projectRoot, WORKTREE_DIR, name]) ∧
    removeWorktreeTargetPath envEscape ".." = "/repo" ∧
    jsStartsWith (removeWorktreeTargetPath envEscape "..") "/repo/.worktree" = false ∧
    pathJoin ["/repo", WORKTREE_DIR, sanitizeBranchName ".."] = "/repo/.worktree/--" ∧
    removeWorktree envEscape ".." =
      ([.readHead "/repo", .worktreeRemove "/repo", .listWorktrees], Option.none) := by
  exact ⟨fun _ _ => rfl, by decide, by decide, by decide, by decide⟩

end Workspace
